import Mathlib

/-!
Verification of the smart-trainer activity-synchronization and training-load
engine against its natural-language specification.

Shallow embedding conventions:
* Python `float`/`int` values are modelled as `ℚ`; nullable values as `Option`.
* Timestamps (`time.time()`, `datetime`) are modelled as `ℚ` (seconds) or `ℤ`
  (calendar-day numbers) as appropriate for each function.
* Python `dict` raw-attribute bags are modelled as association lists
  (`List (String × RawVal)`) with lookup on the first occurrence of a key;
  dicts produced by Python always have distinct keys.
* Database rows visible to a function are passed to it as explicit lists
  (standing for the rows returned by the function's query).
-/

namespace SmartTrainer

/-! ## Tolerance matching — `src/backend/app/api/v1/workouts.py` -/

/-- `DURATION_TOLERANCE = 0.02` (±2%). -/
def DURATION_TOLERANCE : ℚ := 2 / 100

/-- `TSS_TOLERANCE = 0.05` (±5%). -/
def TSS_TOLERANCE : ℚ := 5 / 100

/-- `DISTANCE_TOLERANCE = 0.02` (±2%). -/
def DISTANCE_TOLERANCE : ℚ := 2 / 100

/-- `START_WINDOW_SEC = 5 * 60` seconds. -/
def START_WINDOW_SEC : ℤ := 5 * 60

/-- `_within_tolerance(a, b, tol)` from `workouts.py`:
`None`/`None` is `True`; one-sided `None` is `False`; both zero is `True`;
exactly one zero compares the absolute difference with `1e-6`;
otherwise the relative difference against the larger magnitude is compared
with `tol`. -/
def withinTolerance (a b : Option ℚ) (tol : ℚ) : Bool :=
  match a, b with
  | none, none => true
  | none, some _ => false
  | some _, none => false
  | some va, some vb =>
    if va = 0 ∧ vb = 0 then true
    else if va = 0 ∨ vb = 0 then decide (|va - vb| < 1 / 1000000)
    else decide (|va - vb| / max |va| |vb| ≤ tol)

/-- One existing `Workout` row as seen by `_find_matching_workout`
(same-day query result): start instant in seconds and the three comparable
fields. -/
structure WorkoutRow where
  start_date : ℤ
  duration_sec : Option ℚ
  tss : Option ℚ
  distance_m : Option ℚ
deriving DecidableEq, Repr

/-- The per-row decision of the loop body of `_find_matching_workout`:
match if start times are within 5 minutes, otherwise run the three
tolerance guards (`continue` on a failed guard) and fire when any
comparable field exists on either side. -/
def rowMatches (start_date : ℤ) (duration_sec tss distance_m : Option ℚ)
    (row : WorkoutRow) : Bool :=
  if |row.start_date - start_date| ≤ START_WINDOW_SEC then true
  else
    let dur_ok := withinTolerance duration_sec row.duration_sec DURATION_TOLERANCE
    let tss_ok := withinTolerance tss row.tss TSS_TOLERANCE
    let dist_ok := withinTolerance distance_m row.distance_m DISTANCE_TOLERANCE
    if (duration_sec.isSome || row.duration_sec.isSome) && !dur_ok then false
    else if (tss.isSome || row.tss.isSome) && !tss_ok then false
    else if (distance_m.isSome || row.distance_m.isSome) && !dist_ok then false
    else (duration_sec.isSome || tss.isSome || distance_m.isSome) ||
      (row.duration_sec.isSome || row.tss.isSome || row.distance_m.isSome)

/-- `_find_matching_workout`: scan the same-day rows in query order and
return the first row the loop body accepts. -/
def findMatchingWorkout (start_date : ℤ) (duration_sec tss distance_m : Option ℚ) :
    List WorkoutRow → Option WorkoutRow
  | [] => none
  | row :: rest =>
    if rowMatches start_date duration_sec tss distance_m row then some row
    else findMatchingWorkout start_date duration_sec tss distance_m rest

/-- The field-tolerance rule as the specification words it: a comparable
field absent on either side is satisfied, and the rule fires when each field
present on both sides is within tolerance and at least one comparable field
exists on both sides and matches. -/
def specToleranceRule (duration_sec tss distance_m : Option ℚ) (row : WorkoutRow) : Bool :=
  let sat := fun (a b : Option ℚ) (tol : ℚ) =>
    match a, b with
    | some x, some y => withinTolerance (some x) (some y) tol
    | _, _ => true
  let both := fun (a b : Option ℚ) (tol : ℚ) =>
    a.isSome && b.isSome && withinTolerance a b tol
  sat duration_sec row.duration_sec DURATION_TOLERANCE &&
  sat tss row.tss TSS_TOLERANCE &&
  sat distance_m row.distance_m DISTANCE_TOLERANCE &&
  (both duration_sec row.duration_sec DURATION_TOLERANCE ||
   both tss row.tss TSS_TOLERANCE ||
   both distance_m row.distance_m DISTANCE_TOLERANCE)

/-- The field-tolerance rule the code actually implements: every comparable
field is either absent on both sides or present on both sides within
tolerance (`withinTolerance` returns false for a field present on exactly
one side, so such a field is a mismatch), and at least one comparable field
is present on both sides. -/
def amendedToleranceRule (duration_sec tss distance_m : Option ℚ) (row : WorkoutRow) : Bool :=
  withinTolerance duration_sec row.duration_sec DURATION_TOLERANCE &&
  withinTolerance tss row.tss TSS_TOLERANCE &&
  withinTolerance distance_m row.distance_m DISTANCE_TOLERANCE &&
  ((duration_sec.isSome && row.duration_sec.isSome) ||
   (tss.isSome && row.tss.isSome) ||
   (distance_m.isSome && row.distance_m.isSome))

theorem withinTolerance_isSome_eq {a b : Option ℚ} {tol : ℚ}
    (h : withinTolerance a b tol = true) : a.isSome = b.isSome := by
  cases a <;> cases b <;> simp_all [withinTolerance]

theorem withinTolerance_same (x : ℚ) (tol : ℚ) (htol : 0 ≤ tol) :
    withinTolerance (some x) (some x) tol = true := by
  by_cases hx : x = 0
  · simp [withinTolerance, hx]
  · simp only [withinTolerance]
    rw [if_neg (by simp [hx]), if_neg (by simp [hx])]
    simp only [sub_self, abs_zero, decide_eq_true_eq, zero_div]
    exact htol

/-- C1 counterexample row: same day, start 400 s away (outside the 5-minute
window), no duration, tss 50, no distance. -/
def c1Row : WorkoutRow := ⟨100400, none, some 50, none⟩

theorem c1Row_far : ¬ |c1Row.start_date - 100000| ≤ START_WINDOW_SEC := by
  simp only [c1Row, START_WINDOW_SEC]
  norm_num

/-- C1 counterexample: the claim's rule fires on `c1Row` for a candidate
with duration 3600, tss 50, no distance (duration is absent on the row
side, hence "satisfied"; tss exists on both sides and matches), yet
`_find_matching_workout` returns no match, because the code treats a field
present on exactly one side as a mismatch. -/
theorem c1_counterexample :
    specToleranceRule (some 3600) (some 50) none c1Row = true ∧
    findMatchingWorkout 100000 (some 3600) (some 50) none [c1Row] = none := by
  have h50 : withinTolerance (some 50) (some 50) TSS_TOLERANCE = true :=
    withinTolerance_same 50 TSS_TOLERANCE (by norm_num [TSS_TOLERANCE])
  have hrm : rowMatches 100000 (some 3600) (some 50) none c1Row = false := by
    rw [rowMatches, if_neg c1Row_far]
    simp [c1Row, withinTolerance]
  constructor
  · simp [specToleranceRule, c1Row, h50]
  · simp [findMatchingWorkout, hrm]

/-- C1 amended: outside the 5-minute start window, the loop body fires
exactly when every comparable field is absent on both sides or present on
both sides within tolerance, and at least one comparable field is present
on both sides. -/
theorem c1_toleranceRule_characterization
    (start_date : ℤ) (duration_sec tss distance_m : Option ℚ) (row : WorkoutRow)
    (h : ¬ |row.start_date - start_date| ≤ START_WINDOW_SEC) :
    rowMatches start_date duration_sec tss distance_m row =
      amendedToleranceRule duration_sec tss distance_m row := by
  rw [rowMatches, if_neg h]
  simp only [amendedToleranceRule]
  cases hwd : withinTolerance duration_sec row.duration_sec DURATION_TOLERANCE with
  | false =>
    have hp : (duration_sec.isSome || row.duration_sec.isSome) = true := by
      cases duration_sec <;> cases hr : row.duration_sec <;>
        simp_all [withinTolerance]
    simp [hp, hwd]
  | true =>
    have hd : duration_sec.isSome = row.duration_sec.isSome :=
      withinTolerance_isSome_eq hwd
    cases hwt : withinTolerance tss row.tss TSS_TOLERANCE with
    | false =>
      have hp : (tss.isSome || row.tss.isSome) = true := by
        cases tss <;> cases hr : row.tss <;> simp_all [withinTolerance]
      simp [hp, hwd, hwt]
    | true =>
      have ht : tss.isSome = row.tss.isSome := withinTolerance_isSome_eq hwt
      cases hwm : withinTolerance distance_m row.distance_m DISTANCE_TOLERANCE with
      | false =>
        have hp : (distance_m.isSome || row.distance_m.isSome) = true := by
          cases distance_m <;> cases hr : row.distance_m <;>
            simp_all [withinTolerance]
        simp [hp, hwd, hwt, hwm]
      | true =>
        have hm : distance_m.isSome = row.distance_m.isSome :=
          withinTolerance_isSome_eq hwm
        simp only [hwd, hwt, hwm, ← hd, ← ht, ← hm, Bool.not_true,
          Bool.and_false, Bool.false_and, if_false, Bool.true_and]
        cases duration_sec.isSome <;> cases tss.isSome <;>
          cases distance_m.isSome <;> simp

/-- Witness for the amended C1 theorem at a concrete input. -/
theorem c1_toleranceRule_characterization_witness :
    rowMatches 100000 (some 3600) (some 50) none c1Row =
      amendedToleranceRule (some 3600) (some 50) none c1Row :=
  c1_toleranceRule_characterization 100000 (some 3600) (some 50) none c1Row c1Row_far

/-! ## Raw-bag merge — `src/backend/app/services/workout_merge.py`

`merge_raw` deep-merges JSON-like attribute bags. A bag is a Python dict,
modelled as an association list whose lookup and in-place update act on the
first occurrence of a key (Python dicts always have distinct keys, and
updating an existing key keeps its position while a new key is appended). -/

/-- A JSON-like value stored in a workout's `raw` bag. -/
inductive RawVal where
  | null : RawVal
  | boolV : Bool → RawVal
  | num : ℚ → RawVal
  | str : String → RawVal
  | arr : List RawVal → RawVal
  | obj : List (String × RawVal) → RawVal

/-- `v is None`. -/
def RawVal.isNull : RawVal → Bool
  | .null => true
  | _ => false

/-- `out.get(k)`: first occurrence of `k`. -/
def aget : List (String × RawVal) → String → Option RawVal
  | [], _ => none
  | (k', v) :: rest, k => if k' = k then some v else aget rest k

/-- `out[k] = v`: replace the first occurrence of `k` in place, append if
absent. -/
def aset : List (String × RawVal) → String → RawVal → List (String × RawVal)
  | [], k, v => [(k, v)]
  | (k', v') :: rest, k, v =>
    if k' = k then (k, v) :: rest else (k', v') :: aset rest k v

/-- `isinstance(x, list)` on an optional looked-up value. -/
def isArrOpt : Option RawVal → Bool
  | some (.arr _) => true
  | _ => false

/-- `isinstance(v, list) and v`: a non-empty list. -/
def isNonemptyArr : RawVal → Bool
  | .arr (_ :: _) => true
  | _ => false

/-- `isinstance(v, dict)`. -/
def isObj : RawVal → Bool
  | .obj _ => true
  | _ => false

/-- `isinstance(out.get(k), dict)`. -/
def isObjOpt : Option RawVal → Bool
  | some (.obj _) => true
  | _ => false

/-- The key/value items of a dict value (`[]` for non-dicts; only applied
to dicts). -/
def objKvsD : RawVal → List (String × RawVal)
  | .obj kvs => kvs
  | _ => []

theorem sizeOf_objKvsD_le (v : RawVal) : sizeOf (objKvsD v) ≤ sizeOf v := by
  cases v <;> simp [objKvsD]

/-- The loop of `merge_raw(existing, incoming)` over the items of
`incoming`, with `out` initialised to a copy of `existing`:
skip `None` values; keep an existing `series` list unless the incoming
value is a non-empty list; deep-merge when both sides are dicts; otherwise
assign the incoming value. -/
def mergeRawList : List (String × RawVal) → List (String × RawVal) → List (String × RawVal)
  | out, [] => out
  | out, (k, v) :: rest =>
    mergeRawList
      (if v.isNull then out
       else if k = "series" && isArrOpt (aget out k) then
         if isNonemptyArr v then aset out k v else out
       else if isObj v && isObjOpt (aget out k) then
         aset out k (.obj (mergeRawList (objKvsD ((aget out k).getD .null)) (objKvsD v)))
       else aset out k v)
      rest
termination_by out i => sizeOf i
decreasing_by
  all_goals
    have := sizeOf_objKvsD_le v
    simp_wf
    try omega

/-- `merge_raw(existing, incoming)` with its `None`-or-empty guards:
`out = dict(existing or {})`; return `out` unchanged when `incoming` is
`None` or empty. -/
def mergeRaw (existing incoming : Option (List (String × RawVal))) :
    List (String × RawVal) :=
  let out := existing.getD []
  match incoming with
  | none => out
  | some i => if i.isEmpty then out else mergeRawList out i

/-- The body of one iteration of the `merge_raw` loop, as a standalone
function (identical to the inner expression of `mergeRawList`). -/
def mergeStep (out : List (String × RawVal)) (k : String) (v : RawVal) :
    List (String × RawVal) :=
  if v.isNull then out
  else if k = "series" && isArrOpt (aget out k) then
    if isNonemptyArr v then aset out k v else out
  else if isObj v && isObjOpt (aget out k) then
    aset out k (.obj (mergeRawList (objKvsD ((aget out k).getD .null)) (objKvsD v)))
  else aset out k v

theorem mergeRawList_nil (out : List (String × RawVal)) :
    mergeRawList out [] = out := by
  rw [mergeRawList]

theorem mergeRawList_cons (out : List (String × RawVal)) (k : String)
    (v : RawVal) (rest : List (String × RawVal)) :
    mergeRawList out ((k, v) :: rest) = mergeRawList (mergeStep out k v) rest := by
  rw [mergeRawList, mergeStep]

theorem mergeRaw_some_some (a b : List (String × RawVal)) :
    mergeRaw (some a) (some b) = mergeRawList a b := by
  cases b <;> simp [mergeRaw, mergeRawList_nil]

/-- The value found at key `k` after one loop iteration processing `(k, v)`,
as a function of the previous value `cur` at `k`. -/
def stepGet (cur : Option RawVal) (k : String) (v : RawVal) : Option RawVal :=
  if v.isNull then cur
  else if k = "series" && isArrOpt cur then
    if isNonemptyArr v then some v else cur
  else if isObj v && isObjOpt cur then
    some (.obj (mergeRawList (objKvsD (cur.getD .null)) (objKvsD v)))
  else some v

theorem aget_aset_self (out : List (String × RawVal)) (k : String) (v : RawVal) :
    aget (aset out k v) k = some v := by
  induction out with
  | nil => simp [aset, aget]
  | cons p rest ih =>
    obtain ⟨k', v'⟩ := p
    by_cases h : k' = k <;> simp [aset, aget, h, ih]

theorem aget_aset_ne (out : List (String × RawVal)) (k k' : String) (v : RawVal)
    (h : k' ≠ k) : aget (aset out k' v) k = aget out k := by
  induction out with
  | nil => simp [aset, aget, h]
  | cons p rest ih =>
    obtain ⟨k'', v''⟩ := p
    by_cases h2 : k'' = k' <;> simp [aset, aget, h2, ih]
    · subst h2
      simp [h]

theorem aset_id (out : List (String × RawVal)) (k : String) (v : RawVal)
    (h : aget out k = some v) : aset out k v = out := by
  induction out with
  | nil => simp [aget] at h
  | cons p rest ih =>
    obtain ⟨k', v'⟩ := p
    by_cases h2 : k' = k
    · subst h2
      simp [aget] at h
      simp [aset, h]
    · simp [aget, h2] at h
      simp [aset, h2, ih h]

theorem aget_mergeStep_self (out : List (String × RawVal)) (k : String) (v : RawVal) :
    aget (mergeStep out k v) k = stepGet (aget out k) k v := by
  by_cases h1 : v.isNull = true
  · simp [mergeStep, stepGet, h1]
  · by_cases h2 : (k = "series" && isArrOpt (aget out k)) = true
    · by_cases h3 : isNonemptyArr v = true <;>
        simp [mergeStep, stepGet, h1, h2, h3, aget_aset_self]
    · by_cases h4 : (isObj v && isObjOpt (aget out k)) = true <;>
        simp [mergeStep, stepGet, h1, h2, h4, aget_aset_self]

theorem aget_mergeStep_ne (out : List (String × RawVal)) (k k' : String) (v : RawVal)
    (h : k' ≠ k) : aget (mergeStep out k' v) k = aget out k := by
  by_cases h1 : v.isNull = true
  · simp [mergeStep, h1]
  · by_cases h2 : (k' = "series" && isArrOpt (aget out k')) = true
    · by_cases h3 : isNonemptyArr v = true <;>
        simp [mergeStep, h1, h2, h3, aget_aset_ne _ _ _ _ h]
    · by_cases h4 : (isObj v && isObjOpt (aget out k')) = true <;>
        simp [mergeStep, h1, h2, h4, aget_aset_ne _ _ _ _ h]

theorem aget_mergeRawList_notin (out i : List (String × RawVal)) (k : String)
    (h : k ∉ i.map Prod.fst) :
    aget (mergeRawList out i) k = aget out k := by
  induction i generalizing out with
  | nil => rw [mergeRawList_nil]
  | cons p rest ih =>
    obtain ⟨k', v⟩ := p
    simp only [List.map_cons, List.mem_cons, not_or] at h
    rw [mergeRawList_cons, ih _ h.2, aget_mergeStep_ne _ _ _ _ (fun e => h.1 e.symm)]

/-- Pointwise characterization of the merge loop: for an incoming dict with
distinct keys, the value at `k` after the loop is the previous value when
`k` is not an incoming key, and `stepGet` of the incoming value otherwise. -/
theorem aget_mergeRawList_char (out i : List (String × RawVal)) (k : String)
    (hnd : (i.map Prod.fst).Nodup) :
    aget (mergeRawList out i) k =
      (match aget i k with
       | some v => stepGet (aget out k) k v
       | none => aget out k) := by
  induction i generalizing out with
  | nil => simp [mergeRawList_nil, aget]
  | cons p rest ih =>
    obtain ⟨k', v⟩ := p
    simp only [List.map_cons, List.nodup_cons] at hnd
    rw [mergeRawList_cons]
    by_cases hk : k' = k
    · subst hk
      have hnot : k' ∉ rest.map Prod.fst := hnd.1
      rw [aget_mergeRawList_notin _ _ _ hnot, aget_mergeStep_self]
      simp [aget]
    · rw [ih _ hnd.2]
      have h1 : aget ((k', v) :: rest) k = aget rest k := by simp [aget, hk]
      rw [h1]
      cases hw : aget rest k <;>
        simp [hw, aget_mergeStep_ne _ _ _ _ hk]

/-- Well-formedness of a raw value as produced by Python: every dict
(at any nesting depth reachable through dict values) has distinct keys. -/
inductive RawWF : RawVal → Prop where
  | null : RawWF .null
  | boolV (b : Bool) : RawWF (.boolV b)
  | num (q : ℚ) : RawWF (.num q)
  | str (s : String) : RawWF (.str s)
  | arr (xs : List RawVal) : RawWF (.arr xs)
  | obj (kvs : List (String × RawVal)) : (kvs.map Prod.fst).Nodup →
      (∀ p ∈ kvs, RawWF p.2) → RawWF (.obj kvs)

theorem nodup_aget (kvs : List (String × RawVal))
    (hnd : (kvs.map Prod.fst).Nodup) :
    ∀ p ∈ kvs, aget kvs p.1 = some p.2 := by
  induction kvs with
  | nil => simp
  | cons q rest ih =>
    obtain ⟨k', v'⟩ := q
    simp only [List.map_cons, List.nodup_cons] at hnd
    intro p hp
    rcases List.mem_cons.mp hp with h | h
    · subst h
      simp [aget]
    · have hne : k' ≠ p.1 := by
        intro e
        exact hnd.1 (e ▸ List.mem_map_of_mem Prod.fst h)
      simp only [aget, if_neg hne]
      exact ih hnd.2 p h

theorem RawWF.obj_nodup {kvs : List (String × RawVal)} (h : RawWF (.obj kvs)) :
    (kvs.map Prod.fst).Nodup := by
  cases h
  assumption

theorem RawWF.obj_values {kvs : List (String × RawVal)} (h : RawWF (.obj kvs)) :
    ∀ p ∈ kvs, RawWF p.2 := by
  cases h
  assumption

/-- `stepGet` of a non-empty incoming list is always that list. -/
theorem stepGet_nonempty_arr (cur : Option RawVal) (k : String) (v : RawVal)
    (hv : isNonemptyArr v = true) : stepGet cur k v = some v := by
  have hnull : v.isNull = false := by
    cases v <;> simp_all [isNonemptyArr, RawVal.isNull]
  have hobj : isObj v = false := by
    cases v <;> simp_all [isNonemptyArr, isObj]
  by_cases h2 : (k = "series" && isArrOpt cur) = true
  · simp [stepGet, hnull, h2, hv]
  · simp [stepGet, hnull, h2, hobj]

/-- Replaying the merge loop over an incoming dict that is already pointwise
absorbed into `out` changes nothing. -/
theorem mergeRawList_absorbed :
    ∀ (n : ℕ) (i out : List (String × RawVal)), sizeOf i ≤ n →
      (∀ p ∈ i, aget out p.1 = some p.2) →
      (∀ p ∈ i, RawWF p.2) →
      mergeRawList out i = out := by
  intro n
  induction n with
  | zero =>
    intro i out hs _ _
    have h1 : 1 ≤ sizeOf i := by cases i <;> simp <;> omega
    omega
  | succ n ih =>
    rintro (_ | ⟨⟨k, v⟩, rest⟩) out hs hget hwf
    · exact mergeRawList_nil out
    · rw [mergeRawList_cons]
      have hk : aget out k = some v := hget (k, v) (by simp)
      have hwfv : RawWF v := hwf (k, v) (by simp)
      have hsz : sizeOf rest ≤ n := by
        simp only [List.cons.sizeOf_spec] at hs
        omega
      have hstep : mergeStep out k v = out := by
        by_cases h1 : v.isNull = true
        · simp [mergeStep, h1]
        · by_cases h2 : (k = "series" && isArrOpt (aget out k)) = true
          · by_cases h3 : isNonemptyArr v = true
            · simp [mergeStep, h1, h2, h3, aset_id _ _ _ hk]
            · simp [mergeStep, h1, h2, h3]
          · by_cases h4 : (isObj v && isObjOpt (aget out k)) = true
            · have hov := (Bool.and_eq_true_iff.mp h4).1
              obtain ⟨vkvs, rfl⟩ : ∃ vkvs, v = .obj vkvs := by
                cases v <;> simp [isObj] at hov ⊢
              have hself : mergeRawList vkvs vkvs = vkvs := by
                refine ih vkvs vkvs ?_ (nodup_aget vkvs hwfv.obj_nodup)
                  hwfv.obj_values
                simp only [List.cons.sizeOf_spec, Prod.mk.sizeOf_spec,
                  RawVal.obj.sizeOf_spec] at hs ⊢
                omega
              simp only [mergeStep, if_neg h1, hk, Option.getD_some, objKvsD, hself]
              rw [if_neg (by simp [isArrOpt]), if_pos (by simp [isObj, isObjOpt])]
              exact aset_id _ _ _ hk
            · simp only [mergeStep, if_neg h1, if_neg h2, if_neg h4]
              exact aset_id _ _ _ hk
      rw [hstep]
      exact ih rest out hsz (fun p hp => hget p (List.mem_cons_of_mem _ hp))
        (fun p hp => hwf p (List.mem_cons_of_mem _ hp))

theorem isObj_eq {v : RawVal} (h : isObj v = true) : ∃ kvs, v = .obj kvs := by
  cases v <;> simp [isObj] at h ⊢

theorem isObjOpt_eq {o : Option RawVal} (h : isObjOpt o = true) :
    ∃ m, o = some (.obj m) := by
  cases o with
  | none => simp [isObjOpt] at h
  | some w => cases w <;> simp [isObjOpt] at h ⊢

/-- Replaying one loop iteration `(k, v)` on a state whose value at `k` is
already the result of that iteration is a no-op. -/
theorem mergeStep_restep (out : List (String × RawVal)) (cur : Option RawVal)
    (k : String) (v : RawVal)
    (hget : aget out k = stepGet cur k v)
    (hidem : ∀ ekvs ikvs, v = .obj ikvs →
      mergeRawList (mergeRawList ekvs ikvs) ikvs = mergeRawList ekvs ikvs)
    (habs : ∀ ikvs, v = .obj ikvs → mergeRawList ikvs ikvs = ikvs) :
    mergeStep out k v = out := by
  by_cases h1 : v.isNull = true
  · simp [mergeStep, h1]
  · by_cases h2 : (k = "series" && isArrOpt (aget out k)) = true
    · by_cases h3 : isNonemptyArr v = true
      · have hv : aget out k = some v := by
          rw [hget, stepGet_nonempty_arr _ _ _ h3]
        simp only [mergeStep, if_neg h1, if_pos h2, if_pos h3]
        exact aset_id _ _ _ hv
      · simp only [mergeStep, if_neg h1, if_pos h2, if_neg h3]
    · by_cases h4 : (isObj v && isObjOpt (aget out k)) = true
      · obtain ⟨ikvs, rfl⟩ := isObj_eq (Bool.and_eq_true_iff.mp h4).1
        by_cases h5 : (k = "series" && isArrOpt cur) = true
        · exfalso
          have hsg : stepGet cur k (.obj ikvs) = cur := by
            simp only [stepGet, if_neg h1, if_pos h5, isNonemptyArr]
            simp
          exact h2 (by rw [hget, hsg] at h2 ⊢; exact h5)
        · by_cases h6 : (isObj (.obj ikvs) && isObjOpt cur) = true
          · obtain ⟨ecur, rfl⟩ := isObjOpt_eq (Bool.and_eq_true_iff.mp h6).2
            have hsg : stepGet (some (.obj ecur)) k (.obj ikvs)
                = some (.obj (mergeRawList ecur ikvs)) := by
              simp only [stepGet, if_neg h1, if_neg h5, if_pos h6,
                Option.getD_some, objKvsD]
            rw [hsg] at hget
            simp only [mergeStep, if_neg h1, if_neg h2, if_pos h4, hget,
              Option.getD_some, objKvsD]
            rw [if_neg (by simp [isArrOpt]), if_pos (by simp [isObj, isObjOpt]),
              hidem ecur ikvs rfl]
            exact aset_id _ _ _ hget
          · have hsg : stepGet cur k (.obj ikvs) = some (.obj ikvs) := by
              simp only [stepGet, if_neg h1, if_neg h5, if_neg h6]
            rw [hsg] at hget
            simp only [mergeStep, if_neg h1, if_neg h2, if_pos h4, hget,
              Option.getD_some, objKvsD]
            rw [if_neg (by simp [isArrOpt]), if_pos (by simp [isObj, isObjOpt]),
              habs ikvs rfl]
            exact aset_id _ _ _ hget
      · have hv : aget out k = some v := by
          by_cases h5 : (k = "series" && isArrOpt cur) = true
          · by_cases h3 : isNonemptyArr v = true
            · rw [hget]
              exact stepGet_nonempty_arr _ _ _ h3
            · exfalso
              have hsg : stepGet cur k v = cur := by
                simp only [stepGet, if_neg h1, if_pos h5, if_neg h3]
              exact h2 (by rw [hget, hsg]; exact h5)
          · by_cases h6 : (isObj v && isObjOpt cur) = true
            · exfalso
              obtain ⟨ikvs, rfl⟩ := isObj_eq (Bool.and_eq_true_iff.mp h6).1
              obtain ⟨ecur, rfl⟩ := isObjOpt_eq (Bool.and_eq_true_iff.mp h6).2
              have hsg : stepGet (some (.obj ecur)) k (.obj ikvs)
                  = some (.obj (mergeRawList ecur ikvs)) := by
                simp only [stepGet, if_neg h1, if_neg h5, if_pos h6,
                  Option.getD_some, objKvsD]
              rw [hsg] at hget
              exact h4 (by rw [hget]; simp [isObj, isObjOpt])
            · rw [hget]
              simp only [stepGet, if_neg h1, if_neg h5, if_neg h6]
        simp only [mergeStep, if_neg h1, if_neg h2, if_neg h4]
        exact aset_id _ _ _ hv

/-- Replaying a whole incoming dict with distinct keys over an already-merged
result changes nothing (strong induction on the size of the incoming dict). -/
theorem mergeRawList_idem :
    ∀ (n : ℕ) (b out : List (String × RawVal)), sizeOf b ≤ n →
      (b.map Prod.fst).Nodup → (∀ p ∈ b, RawWF p.2) →
      mergeRawList (mergeRawList out b) b = mergeRawList out b := by
  intro n
  induction n with
  | zero =>
    intro b out hs _ _
    have h1 : 1 ≤ sizeOf b := by cases b <;> simp <;> omega
    omega
  | succ n ih =>
    rintro (_ | ⟨⟨k, v⟩, rest⟩) out hs hnd hwf
    · simp [mergeRawList_nil]
    · simp only [List.map_cons, List.nodup_cons] at hnd
      have hszr : sizeOf rest ≤ n := by
        simp only [List.cons.sizeOf_spec] at hs
        omega
      have hwfv : RawWF v := hwf (k, v) (by simp)
      have e1 : mergeRawList out ((k, v) :: rest)
          = mergeRawList (mergeStep out k v) rest := mergeRawList_cons _ _ _ _
      rw [e1, mergeRawList_cons]
      have hLk : aget (mergeRawList (mergeStep out k v) rest) k
          = stepGet (aget out k) k v := by
        rw [aget_mergeRawList_notin _ _ _ hnd.1, aget_mergeStep_self]
      have hobjsz : ∀ ikvs : List (String × RawVal), v = .obj ikvs → sizeOf ikvs ≤ n := by
        rintro ikvs rfl
        simp only [List.cons.sizeOf_spec, Prod.mk.sizeOf_spec,
          RawVal.obj.sizeOf_spec] at hs
        omega
      have hstep : mergeStep (mergeRawList (mergeStep out k v) rest) k v
          = mergeRawList (mergeStep out k v) rest := by
        refine mergeStep_restep _ (aget out k) _ _ hLk ?_ ?_
        · rintro ekvs ikvs rfl
          exact ih ikvs ekvs (hobjsz ikvs rfl) hwfv.obj_nodup hwfv.obj_values
        · rintro ikvs rfl
          exact mergeRawList_absorbed (sizeOf ikvs) ikvs ikvs le_rfl
            (nodup_aget ikvs hwfv.obj_nodup) hwfv.obj_values
      rw [hstep]
      exact ih rest (mergeStep out k v) hszr hnd.2
        (fun p hp => hwf p (List.mem_cons_of_mem _ hp))

/-- C9: merging the same observation twice is the same as merging it once:
`merge_raw(merge_raw(A, B), B) == merge_raw(A, B)` (here proved as a
structural equality, which implies Python `==`), for raw bags as produced by
Python (every nested dict has distinct keys). -/
theorem c9_merge_idempotent (a b : List (String × RawVal))
    (hb : RawWF (.obj b)) :
    mergeRaw (some (mergeRaw (some a) (some b))) (some b) = mergeRaw (some a) (some b) := by
  rw [mergeRaw_some_some, mergeRaw_some_some]
  exact mergeRawList_idem (sizeOf b) b a le_rfl hb.obj_nodup hb.obj_values

/-- Witness for C9 at concrete bags
`A = {"tss": 50, "x": {"a": 1}}`, `B = {"x": {"b": null}, "series": [1]}`. -/
theorem c9_merge_idempotent_witness :
    mergeRaw (some (mergeRaw
        (some [("tss", .num 50), ("x", .obj [("a", .num 1)])])
        (some [("x", .obj [("b", .null)]), ("series", .arr [.num 1])])))
      (some [("x", .obj [("b", .null)]), ("series", .arr [.num 1])]) =
    mergeRaw (some [("tss", .num 50), ("x", .obj [("a", .num 1)])])
      (some [("x", .obj [("b", .null)]), ("series", .arr [.num 1])]) :=
  c9_merge_idempotent _ _ (by
    refine .obj _ (by simp) ?_
    rintro p hp
    simp only [List.mem_cons, List.mem_singleton] at hp
    rcases hp with rfl | rfl | h
    · exact .obj _ (by simp) (by rintro q hq; simp at hq; subst hq; exact .null)
    · exact .arr _
    · simp at h)

/-! ## Scalar-field merge — `_merge_workout_fields` in
`src/backend/app/api/v1/workouts.py` -/

/-- The mutable scalar state of a unified `Workout` row, as touched by
`_merge_workout_fields`. -/
structure WorkoutState where
  name : Option String
  type : Option String
  duration_sec : Option ℚ
  distance_m : Option ℚ
  tss : Option ℚ
  notes : Option String
  fit_checksum : Option String
  source : Option String
  raw : Option (List (String × RawVal))

/-- One observation of an activity: the keyword arguments of
`_merge_workout_fields`, each defaulting to `None`. -/
structure Observation where
  name : Option String := none
  type : Option String := none
  duration_sec : Option ℚ := none
  distance_m : Option ℚ := none
  tss : Option ℚ := none
  notes : Option String := none
  fit_checksum : Option String := none
  source : Option String := none
  raw : Option (List (String × RawVal)) := none

/-- `if x is not None: existing.f = x` — keep the existing value only when
the incoming one is `None`. -/
def ov {α : Type} (inc ex : Option α) : Option α :=
  match inc with
  | some x => some x
  | none => ex

/-- `_merge_workout_fields(existing, ...)`: assign every non-`None` incoming
scalar; `raw`, when given, is deep-merged with `merge_raw`. -/
def mergeWorkoutFields (existing : WorkoutState) (inc : Observation) : WorkoutState where
  name := ov inc.name existing.name
  type := ov inc.type existing.type
  duration_sec := ov inc.duration_sec existing.duration_sec
  distance_m := ov inc.distance_m existing.distance_m
  tss := ov inc.tss existing.tss
  notes := ov inc.notes existing.notes
  fit_checksum := ov inc.fit_checksum existing.fit_checksum
  source := ov inc.source existing.source
  raw := match inc.raw with
    | some r => some (mergeRaw existing.raw (some r))
    | none => existing.raw

theorem mergeRaw_opt (x : Option (List (String × RawVal))) (i : List (String × RawVal)) :
    mergeRaw x (some i) = mergeRawList (x.getD []) i := by
  cases x <;> cases i <;> simp [mergeRaw, mergeRawList_nil]

/-- The bag has a non-null `series` entry. -/
def hasSeries (kvs : List (String × RawVal)) : Prop :=
  ∃ v, aget kvs "series" = some v ∧ v ≠ .null

theorem isNull_false_ne {v : RawVal} (h : v.isNull = false) : v ≠ .null := by
  intro e
  subst e
  simp [RawVal.isNull] at h

theorem ne_isNull_false {v : RawVal} (h : v ≠ .null) : v.isNull = false := by
  cases v <;> simp [RawVal.isNull] <;> exact h rfl

/-- `stepGet` of a non-`None` incoming value is never null (the incoming
value, a kept `series` list, or a merged dict). -/
theorem stepGet_not_null (cur : Option RawVal) (k : String) (v : RawVal)
    (h : v.isNull = false) :
    ∃ w, stepGet cur k v = some w ∧ w ≠ .null := by
  by_cases h2 : (k = "series" && isArrOpt cur) = true
  · by_cases h3 : isNonemptyArr v = true
    · exact ⟨v, by simp [stepGet, h, h2, h3], isNull_false_ne h⟩
    · have harr := (Bool.and_eq_true_iff.mp h2).2
      obtain ⟨l, rfl⟩ : ∃ l, cur = some (.arr l) := by
        cases cur with
        | none => simp [isArrOpt] at harr
        | some w => cases w <;> simp [isArrOpt] at harr ⊢
      exact ⟨.arr l, by simp [stepGet, h, h2, h3], by intro e; cases e⟩
  · by_cases h4 : (isObj v && isObjOpt cur) = true
    · refine ⟨.obj (mergeRawList (objKvsD (cur.getD .null)) (objKvsD v)), ?_,
        by intro e; cases e⟩
      simp [stepGet, h, h2, h4]
    · exact ⟨v, by simp [stepGet, h, h2, h4], isNull_false_ne h⟩

theorem stepGet_null (cur : Option RawVal) (k : String) (v : RawVal)
    (h : v.isNull = true) : stepGet cur k v = cur := by
  simp [stepGet, h]

/-- A non-null value at key `k` survives the merge loop, and a non-null
incoming entry at `k` establishes one. -/
theorem aget_mergeRawList_not_null (i : List (String × RawVal)) :
    ∀ (out : List (String × RawVal)) (k : String),
      ((∃ w, aget out k = some w ∧ w ≠ .null) ∨ (∃ v, (k, v) ∈ i ∧ v ≠ .null)) →
      ∃ w, aget (mergeRawList out i) k = some w ∧ w ≠ .null := by
  induction i with
  | nil =>
    intro out k h
    rcases h with h | ⟨v, hv, _⟩
    · rw [mergeRawList_nil]
      exact h
    · simp at hv
  | cons p rest ih =>
    obtain ⟨k', v'⟩ := p
    intro out k h
    rw [mergeRawList_cons]
    apply ih
    rcases h with ⟨w, hw, hnn⟩ | ⟨v, hv, hnn⟩
    · left
      by_cases hk : k' = k
      · subst hk
        rw [aget_mergeStep_self]
        cases hn : v'.isNull with
        | true => exact ⟨w, by rw [stepGet_null _ _ _ hn, hw], hnn⟩
        | false => exact stepGet_not_null _ _ _ hn
      · exact ⟨w, by rw [aget_mergeStep_ne _ _ _ _ hk, hw], hnn⟩
    · rcases List.mem_cons.mp hv with he | he
      · obtain ⟨e1, e2⟩ := Prod.mk.injEq .. ▸ he
        left
        subst e1
        rw [aget_mergeStep_self]
        exact e2 ▸ stepGet_not_null _ _ _ (ne_isNull_false (e2 ▸ hnn))
      · right
        exact ⟨v, he, hnn⟩

/-- C5: the merge never reduces information. Every scalar field of the merged
row equals the incoming value when that is non-null and the existing value
otherwise, and the merged raw bag has a non-null `series` entry whenever
either side has one. -/
theorem c5_merge_never_reduces (existing : WorkoutState) (inc : Observation) :
    ((mergeWorkoutFields existing inc).name
      = if inc.name.isSome then inc.name else existing.name) ∧
    ((mergeWorkoutFields existing inc).type
      = if inc.type.isSome then inc.type else existing.type) ∧
    ((mergeWorkoutFields existing inc).duration_sec
      = if inc.duration_sec.isSome then inc.duration_sec else existing.duration_sec) ∧
    ((mergeWorkoutFields existing inc).distance_m
      = if inc.distance_m.isSome then inc.distance_m else existing.distance_m) ∧
    ((mergeWorkoutFields existing inc).tss
      = if inc.tss.isSome then inc.tss else existing.tss) ∧
    ((mergeWorkoutFields existing inc).notes
      = if inc.notes.isSome then inc.notes else existing.notes) ∧
    ((hasSeries (existing.raw.getD []) ∨
        (∃ v, ("series", v) ∈ inc.raw.getD [] ∧ v ≠ .null)) →
      hasSeries ((mergeWorkoutFields existing inc).raw.getD [])) := by
  refine ⟨?_, ?_, ?_, ?_, ?_, ?_, ?_⟩
  · cases h : inc.name <;> simp [mergeWorkoutFields, ov, h]
  · cases h : inc.type <;> simp [mergeWorkoutFields, ov, h]
  · cases h : inc.duration_sec <;> simp [mergeWorkoutFields, ov, h]
  · cases h : inc.distance_m <;> simp [mergeWorkoutFields, ov, h]
  · cases h : inc.tss <;> simp [mergeWorkoutFields, ov, h]
  · cases h : inc.notes <;> simp [mergeWorkoutFields, ov, h]
  · intro h
    cases hr : inc.raw with
    | none =>
      rw [hr] at h
      simp only [mergeWorkoutFields, hr]
      rcases h with h | ⟨v, hv, _⟩
      · exact h
      · simp at hv
    | some i =>
      rw [hr] at h
      simp only [mergeWorkoutFields, hr, mergeRaw_opt, Option.getD_some]
      apply aget_mergeRawList_not_null
      rcases h with ⟨w, hw, hnn⟩ | ⟨v, hv, hnn⟩
      · exact Or.inl ⟨w, hw, hnn⟩
      · exact Or.inr ⟨v, hv, hnn⟩

/-- Witness for C5: the existing side has a FIT series, the incoming bag
does not mention it; the merged bag keeps the non-null series. -/
theorem c5_merge_never_reduces_witness :
    hasSeries ((mergeWorkoutFields
        ⟨some "Run", none, some 3600, none, some 50, none, none, some "fit",
          some [("series", .arr [.num 1, .num 2])]⟩
        { tss := some 55, raw := some [("hr", .num 140)] }).raw.getD []) :=
  (c5_merge_never_reduces
      ⟨some "Run", none, some 3600, none, some 50, none, none, some "fit",
        some [("series", .arr [.num 1, .num 2])]⟩
      { tss := some 55, raw := some [("hr", .num 140)] }).2.2.2.2.2.2
    (Or.inl ⟨.arr [.num 1, .num 2], by simp [aget], by intro e; cases e⟩)

/-! ## C2 — order-independence of merging two observations -/

/-- Empty starting state for the C2 counterexample. -/
def c2S : WorkoutState := ⟨none, none, none, none, none, none, none, none, none⟩

/-- Observation A: the activity named by its device file. -/
def c2A : Observation := { name := some "Morning Run" }

/-- Observation B: the same activity named by the platform. -/
def c2B : Observation := { name := some "Run" }

/-- C2 counterexample: the scalar merge prefers the incoming value, so two
observations that disagree on a field produce order-dependent end states —
A then B keeps B's name, B then A keeps A's name. -/
theorem c2_counterexample :
    mergeWorkoutFields (mergeWorkoutFields c2S c2A) c2B ≠
    mergeWorkoutFields (mergeWorkoutFields c2S c2B) c2A := by
  intro h
  have hname := congrArg WorkoutState.name h
  simp [mergeWorkoutFields, ov, c2S, c2A, c2B] at hname

theorem ov_comm {α : Type} (s a b : Option α)
    (h : ∀ x y, a = some x → b = some y → x = y) :
    ov b (ov a s) = ov a (ov b s) := by
  cases ha : a <;> cases hb : b <;> simp [ov]
  exact (h _ _ ha hb).symm

/-- C2 amended: merging two observations of the same activity commutes
whenever the observations do not conflict — every scalar field non-null in
both carries the same value and every raw key present in both bags carries
the same value. The end states agree on every scalar field and, as dicts
(pointwise lookup, which is Python `==` for dicts), on the raw bag. -/
theorem c2_merge_commutative_when_compatible (s : WorkoutState) (a b : Observation)
    (hname : ∀ x y, a.name = some x → b.name = some y → x = y)
    (htype : ∀ x y, a.type = some x → b.type = some y → x = y)
    (hdur : ∀ x y, a.duration_sec = some x → b.duration_sec = some y → x = y)
    (hdist : ∀ x y, a.distance_m = some x → b.distance_m = some y → x = y)
    (htss : ∀ x y, a.tss = some x → b.tss = some y → x = y)
    (hnotes : ∀ x y, a.notes = some x → b.notes = some y → x = y)
    (hfit : ∀ x y, a.fit_checksum = some x → b.fit_checksum = some y → x = y)
    (hsource : ∀ x y, a.source = some x → b.source = some y → x = y)
    (hand : ((a.raw.getD []).map Prod.fst).Nodup)
    (hbnd : ((b.raw.getD []).map Prod.fst).Nodup)
    (hraw : ∀ k x y, aget (a.raw.getD []) k = some x →
      aget (b.raw.getD []) k = some y → x = y) :
    ((mergeWorkoutFields (mergeWorkoutFields s a) b).name
      = (mergeWorkoutFields (mergeWorkoutFields s b) a).name) ∧
    ((mergeWorkoutFields (mergeWorkoutFields s a) b).type
      = (mergeWorkoutFields (mergeWorkoutFields s b) a).type) ∧
    ((mergeWorkoutFields (mergeWorkoutFields s a) b).duration_sec
      = (mergeWorkoutFields (mergeWorkoutFields s b) a).duration_sec) ∧
    ((mergeWorkoutFields (mergeWorkoutFields s a) b).distance_m
      = (mergeWorkoutFields (mergeWorkoutFields s b) a).distance_m) ∧
    ((mergeWorkoutFields (mergeWorkoutFields s a) b).tss
      = (mergeWorkoutFields (mergeWorkoutFields s b) a).tss) ∧
    ((mergeWorkoutFields (mergeWorkoutFields s a) b).notes
      = (mergeWorkoutFields (mergeWorkoutFields s b) a).notes) ∧
    ((mergeWorkoutFields (mergeWorkoutFields s a) b).fit_checksum
      = (mergeWorkoutFields (mergeWorkoutFields s b) a).fit_checksum) ∧
    ((mergeWorkoutFields (mergeWorkoutFields s a) b).source
      = (mergeWorkoutFields (mergeWorkoutFields s b) a).source) ∧
    ((mergeWorkoutFields (mergeWorkoutFields s a) b).raw.isSome
      = (mergeWorkoutFields (mergeWorkoutFields s b) a).raw.isSome) ∧
    (∀ k, aget ((mergeWorkoutFields (mergeWorkoutFields s a) b).raw.getD []) k
      = aget ((mergeWorkoutFields (mergeWorkoutFields s b) a).raw.getD []) k) := by
  refine ⟨ov_comm _ _ _ hname, ov_comm _ _ _ htype, ov_comm _ _ _ hdur,
    ov_comm _ _ _ hdist, ov_comm _ _ _ htss, ov_comm _ _ _ hnotes,
    ov_comm _ _ _ hfit, ov_comm _ _ _ hsource, ?_, ?_⟩
  · cases ha : a.raw <;> cases hb : b.raw <;>
      simp [mergeWorkoutFields, ha, hb]
  · intro k
    cases ha : a.raw with
    | none =>
      cases hb : b.raw <;> simp [mergeWorkoutFields, ha, hb]
    | some ra =>
      cases hb : b.raw with
      | none => simp [mergeWorkoutFields, ha, hb]
      | some rb =>
        rw [ha] at hand hraw
        rw [hb] at hbnd hraw
        simp only [Option.getD_some] at hand hbnd hraw
        simp only [mergeWorkoutFields, ha, hb, mergeRaw_opt, Option.getD_some]
        rw [aget_mergeRawList_char _ _ _ hbnd, aget_mergeRawList_char _ _ _ hand,
          aget_mergeRawList_char _ _ _ hand, aget_mergeRawList_char _ _ _ hbnd]
        cases hga : aget ra k <;> cases hgb : aget rb k <;> simp
        rw [hraw k _ _ hga hgb]

/-- Witness for C2 amended: disjoint observations (A carries duration and a
heart-rate bag, B carries tss and a power bag) merge to the same end state
in either order. -/
theorem c2_merge_commutative_when_compatible_witness :
    ((mergeWorkoutFields (mergeWorkoutFields c2S
        { duration_sec := some 3600, raw := some [("hr", .num 140)] })
        { tss := some 55, raw := some [("power", .num 200)] }).tss
      = (mergeWorkoutFields (mergeWorkoutFields c2S
        { tss := some 55, raw := some [("power", .num 200)] })
        { duration_sec := some 3600, raw := some [("hr", .num 140)] }).tss) ∧
    (∀ k, aget ((mergeWorkoutFields (mergeWorkoutFields c2S
        { duration_sec := some 3600, raw := some [("hr", .num 140)] })
        { tss := some 55, raw := some [("power", .num 200)] }).raw.getD []) k
      = aget ((mergeWorkoutFields (mergeWorkoutFields c2S
        { tss := some 55, raw := some [("power", .num 200)] })
        { duration_sec := some 3600, raw := some [("hr", .num 140)] }).raw.getD []) k) := by
  have h := c2_merge_commutative_when_compatible c2S
    { duration_sec := some 3600, raw := some [("hr", .num 140)] }
    { tss := some 55, raw := some [("power", .num 200)] }
    (by intro x y hx hy; cases hx) (by intro x y hx hy; cases hx)
    (by intro x y hx hy; cases hy) (by intro x y hx hy; cases hx)
    (by intro x y hx hy; cases hx) (by intro x y hx hy; cases hx)
    (by intro x y hx hy; cases hx) (by intro x y hx hy; cases hx)
    (by simp) (by simp)
    (by
      intro k x y hx hy
      by_cases hk : "hr" = k
      · subst hk
        simp [aget] at hy
      · simp [aget, hk] at hx)
  exact ⟨h.2.2.2.2.1, h.2.2.2.2.2.2.2.2.2⟩

/-! ## Load metrics — `src/backend/app/services/load_metrics.py`

`compute_fitness_from_workouts` queries `(start_date, tss)` of the user's
workouts with `from_dt <= start_date < to_dt`. Both query bounds are
midnights, so the filter is exact at calendar-day granularity: days are
modelled as integers, a row is `(Option ℤ) × (Option ℚ)` (day of
`start_date`, `tss`). -/

/-- `CTL_TAU = 42` days. -/
def CTL_TAU : ℚ := 42

/-- `ATL_TAU = 7` days. -/
def ATL_TAU : ℚ := 7

/-- The rows surviving the query's date filter and the `if start_date:`
guard of the accumulation loop. -/
def inRangeRows (rows : List (Option ℤ × Option ℚ)) (fromDay toDay : ℤ) :
    List (ℤ × Option ℚ) :=
  rows.filterMap (fun r =>
    match r.1 with
    | some d => if fromDay ≤ d ∧ d ≤ toDay then some (d, r.2) else none
    | none => none)

/-- `tss_by_date[d]`: each row on day `d` adds `float(tss)` if `tss` is not
`None` else `0.0`. -/
def tssOnDay (rs : List (ℤ × Option ℚ)) (d : ℤ) : ℚ :=
  (rs.filter (fun r => r.1 = d)).foldl (fun acc r => acc + r.2.getD 0) 0

/-- `min(tss_by_date.keys())`: the earliest day carrying any row,
`none` when there are no rows. -/
def minDay? : List (ℤ × Option ℚ) → Option ℤ
  | [] => none
  | (d, _) :: rest =>
    match minDay? rest with
    | none => some d
    | some m => some (min d m)

/-- The `while d <= to_date` loop: `n` remaining days starting at day `d`,
carrying `(ctl, atl)`. -/
def emaLoop (rs : List (ℤ × Option ℚ)) : ℕ → ℤ → ℚ × ℚ → ℚ × ℚ
  | 0, _, ca => ca
  | n + 1, d, ca =>
    emaLoop rs n (d + 1)
      (ca.1 + (tssOnDay rs d - ca.1) / CTL_TAU,
       ca.2 + (tssOnDay rs d - ca.2) / ATL_TAU)

/-- Python `round(x)` (banker's rounding, half to even). -/
def roundHalfEven (q : ℚ) : ℤ :=
  if q - ⌊q⌋ < 1 / 2 then ⌊q⌋
  else if q - ⌊q⌋ > 1 / 2 then ⌊q⌋ + 1
  else if Even ⌊q⌋ then ⌊q⌋ else ⌊q⌋ + 1

/-- Python `round(x, 1)`. -/
def pyRound1 (q : ℚ) : ℚ := (roundHalfEven (q * 10) : ℚ) / 10

/-- The dict returned by `compute_fitness_from_workouts`. -/
structure FitnessResult where
  ctl : ℚ
  atl : ℚ
  tsb : ℚ
  date : ℤ
deriving DecidableEq, Repr

/-- `compute_fitness_from_workouts(session, user_id, from_days, as_of)`:
sum TSS per calendar day over the lookback window, return `None` when the
day map is empty, otherwise run the CTL/ATL EMA from the earliest day with
a row through `as_of` and return the rounded figures. -/
def computeFitnessFromWorkouts (rows : List (Option ℤ × Option ℚ))
    (asOf : ℤ) (fromDays : ℤ) : Option FitnessResult :=
  let fromDay := asOf - fromDays
  let rs := inRangeRows rows fromDay asOf
  match minDay? rs with
  | none => none
  | some firstDay =>
    let n := (asOf - firstDay + 1).toNat
    let ca := emaLoop rs n firstDay (0, 0)
    some ⟨pyRound1 ca.1, pyRound1 ca.2, pyRound1 (ca.1 - ca.2), asOf⟩

theorem minDay?_eq_none {rs : List (ℤ × Option ℚ)} :
    minDay? rs = none ↔ rs = [] := by
  cases rs with
  | nil => simp [minDay?]
  | cons p rest =>
    obtain ⟨d, t⟩ := p
    simp only [minDay?]
    cases minDay? rest <;> simp

/-- C3 counterexample: a single in-range workout whose `tss` is null still
produces a (zero-valued) result — the code returns `None` only when there
are no workout rows at all, not when no row has a non-null `tss`. -/
theorem c3_counterexample :
    computeFitnessFromWorkouts [(some 0, none)] 0 90 ≠ none := by
  have hr : inRangeRows [(some 0, none)] (0 - 90) 0 = [(0, none)] := by
    simp [inRangeRows]
  simp only [computeFitnessFromWorkouts, hr, minDay?]
  simp

/-- C3 amended: `compute_fitness_from_workouts` returns `None` exactly when
the user has no workout row (with a non-null start date) in the lookback
range; a row whose `tss` is null counts as a zero-TSS day, not as missing
data. -/
theorem c3_none_iff_no_rows (rows : List (Option ℤ × Option ℚ))
    (asOf fromDays : ℤ) :
    computeFitnessFromWorkouts rows asOf fromDays = none ↔
      inRangeRows rows (asOf - fromDays) asOf = [] := by
  rw [← minDay?_eq_none]
  simp only [computeFitnessFromWorkouts]
  cases h : minDay? (inRangeRows rows (asOf - fromDays) asOf) <;> simp [h]

/-! ## C8 — the CTL/ATL/TSB recurrence as the specification words it -/

/-- Modelled from the spec: the summed TSS recorded on calendar day `d`
(workouts with a null `tss` record nothing). -/
def specDailyTss (rs : List (ℤ × Option ℚ)) (d : ℤ) : ℚ :=
  ((rs.filter (fun r => r.1 = d)).filterMap Prod.snd).sum

/-- Modelled from the spec: the first calendar day with any recorded TSS. -/
def specFirstTssDay? (rs : List (ℤ × Option ℚ)) : Option ℤ :=
  minDay? (rs.filter (fun r => r.2.isSome))

/-- Modelled from the spec: iterate
`ctl_t = ctl_{t-1} + (tss_t - ctl_{t-1}) / 42` and
`atl_t = atl_{t-1} + (tss_t - atl_{t-1}) / 7` over `n` consecutive calendar
days starting at day `d`, missing days contributing `tss = 0`. -/
def specEma (rs : List (ℤ × Option ℚ)) : ℕ → ℤ → ℚ × ℚ → ℚ × ℚ
  | 0, _, ca => ca
  | n + 1, d, ca =>
    specEma rs n (d + 1)
      (ca.1 + (specDailyTss rs d - ca.1) / 42,
       ca.2 + (specDailyTss rs d - ca.2) / 7)

theorem foldl_add_getD (l : List (ℤ × Option ℚ)) (c : ℚ) :
    l.foldl (fun acc r => acc + r.2.getD 0) c = c + (l.filterMap Prod.snd).sum := by
  induction l generalizing c with
  | nil => simp
  | cons p rest ih =>
    obtain ⟨d, t⟩ := p
    cases t <;> simp [ih] <;> ring

theorem tssOnDay_eq_specDailyTss (rs : List (ℤ × Option ℚ)) (d : ℤ) :
    tssOnDay rs d = specDailyTss rs d := by
  simp [tssOnDay, specDailyTss, foldl_add_getD]

theorem emaLoop_eq_specEma (rs : List (ℤ × Option ℚ)) :
    ∀ (n : ℕ) (d : ℤ) (ca : ℚ × ℚ), emaLoop rs n d ca = specEma rs n d ca := by
  intro n
  induction n with
  | zero => intro d ca; rfl
  | succ n ih =>
    intro d ca
    simp only [emaLoop, specEma, tssOnDay_eq_specDailyTss, CTL_TAU, ATL_TAU, ih]

theorem minDay?_le {rs : List (ℤ × Option ℚ)} {m : ℤ} (h : minDay? rs = some m) :
    ∀ p ∈ rs, m ≤ p.1 := by
  induction rs generalizing m with
  | nil => simp
  | cons q rest ih =>
    obtain ⟨d, t⟩ := q
    intro p hp
    simp only [minDay?] at h
    cases hm : minDay? rest with
    | none =>
      rw [hm] at h
      have hrest : rest = [] := minDay?_eq_none.mp hm
      subst hrest
      simp only [Option.some.injEq] at h
      simp only [List.mem_singleton] at hp
      subst hp
      simp [h]
    | some m' =>
      rw [hm] at h
      simp only [Option.some.injEq] at h
      rcases List.mem_cons.mp hp with rfl | hmem
      · simp [← h]
      · have := ih hm p hmem
        have hmin : m ≤ m' := by
          rw [← h]
          exact min_le_right d m'
        omega

theorem minDay?_mem {rs : List (ℤ × Option ℚ)} {m : ℤ} (h : minDay? rs = some m) :
    ∃ p ∈ rs, p.1 = m := by
  induction rs generalizing m with
  | nil => simp [minDay?] at h
  | cons q rest ih =>
    obtain ⟨d, t⟩ := q
    simp only [minDay?] at h
    cases hm : minDay? rest with
    | none =>
      rw [hm] at h
      simp only [Option.some.injEq] at h
      exact ⟨(d, t), by simp, h⟩
    | some m' =>
      rw [hm] at h
      simp only [Option.some.injEq] at h
      by_cases hle : d ≤ m'
      · refine ⟨(d, t), by simp, ?_⟩
        simp only [← h, min_eq_left hle]
      · obtain ⟨p, hp, hp1⟩ := ih hm
        refine ⟨p, List.mem_cons_of_mem _ hp, ?_⟩
        rw [hp1, ← h, min_eq_right (by omega)]

theorem inRangeRows_mem {rows : List (Option ℤ × Option ℚ)} {fromDay toDay : ℤ}
    {p : ℤ × Option ℚ} (hp : p ∈ inRangeRows rows fromDay toDay) :
    fromDay ≤ p.1 ∧ p.1 ≤ toDay := by
  simp only [inRangeRows, List.mem_filterMap] at hp
  obtain ⟨⟨r1, r2⟩, _, hr⟩ := hp
  cases r1 with
  | none =>
    have hr' : (none : Option (ℤ × Option ℚ)) = some p := hr
    cases hr'
  | some d =>
    have hr' : (if fromDay ≤ d ∧ d ≤ toDay then some ((d, r2) : ℤ × Option ℚ)
        else none) = some p := hr
    by_cases hc : fromDay ≤ d ∧ d ≤ toDay
    · rw [if_pos hc] at hr'
      injection hr' with he
      subst he
      exact hc
    · rw [if_neg hc] at hr'
      cases hr'

theorem specDailyTss_zero_before (rs : List (ℤ × Option ℚ)) (f : ℤ)
    (hf : specFirstTssDay? rs = some f) (d : ℤ) (hd : d < f) :
    specDailyTss rs d = 0 := by
  have hall : ∀ q ∈ rs, q.1 = d → q.2 = none := by
    intro q hq hqd
    cases hq2 : q.2 with
    | none => rfl
    | some t =>
      exfalso
      have hmem : q ∈ rs.filter (fun r => r.2.isSome) := by
        simp [List.mem_filter, hq, hq2]
      have := minDay?_le hf q hmem
      omega
  have hnil : (rs.filter (fun r => r.1 = d)).filterMap Prod.snd = [] := by
    rw [List.filterMap_eq_nil]
    intro q hq
    have hq' := List.mem_filter.mp hq
    exact hall q hq'.1 (by simpa using hq'.2)
  simp [specDailyTss, hnil]

theorem specEma_zero_prefix (rs : List (ℤ × Option ℚ)) :
    ∀ (j n : ℕ) (d : ℤ), (∀ i : ℕ, i < j → specDailyTss rs (d + i) = 0) →
      specEma rs (j + n) d (0, 0) = specEma rs n (d + j) (0, 0) := by
  intro j
  induction j with
  | zero =>
    intro n d _
    simp
  | succ j ih =>
    intro n d hz
    have h0 : specDailyTss rs d = 0 := by simpa using hz 0 (Nat.succ_pos j)
    have hsplit : (j + 1) + n = (j + n) + 1 := by omega
    rw [hsplit]
    have hz' : ∀ i : ℕ, i < j → specDailyTss rs (d + 1 + i) = 0 := by
      intro i hi
      have := hz (i + 1) (by omega)
      have harith : d + ((i : ℤ) + 1) = d + 1 + i := by ring
      rw [← harith]
      simpa using this
    have e : specEma rs ((j + n) + 1) d (0, 0) = specEma rs (j + n) (d + 1) (0, 0) := by
      simp only [specEma, h0]
      norm_num
    rw [e, ih n (d + 1) hz']
    congr 1
    push_cast
    ring

/-- C8: with at least one in-range day of recorded TSS, the computation
returns exactly the spec's recurrence — daily TSS sums (multiple workouts on
a day add), every calendar day from the first day with recorded TSS through
`as_of` iterated with missing days as zero, `ctl`/`atl` started at 0, and
`tsb = ctl - atl` at `as_of` (each figure rounded to one decimal, the `tsb`
computed before rounding). The code starts its loop at the first day with
any workout row, which can only prepend zero-TSS days that leave the EMA at
zero, so the results coincide. -/
theorem c8_ema_refinement (rows : List (Option ℤ × Option ℚ)) (asOf fromDays : ℤ)
    (f : ℤ)
    (hf : specFirstTssDay? (inRangeRows rows (asOf - fromDays) asOf) = some f) :
    computeFitnessFromWorkouts rows asOf fromDays =
      some ⟨pyRound1 (specEma (inRangeRows rows (asOf - fromDays) asOf)
              (asOf - f + 1).toNat f (0, 0)).1,
            pyRound1 (specEma (inRangeRows rows (asOf - fromDays) asOf)
              (asOf - f + 1).toNat f (0, 0)).2,
            pyRound1 ((specEma (inRangeRows rows (asOf - fromDays) asOf)
              (asOf - f + 1).toNat f (0, 0)).1 -
              (specEma (inRangeRows rows (asOf - fromDays) asOf)
              (asOf - f + 1).toNat f (0, 0)).2),
            asOf⟩ := by
  obtain ⟨p, hpfilter, hp1⟩ := minDay?_mem hf
  have hprs : p ∈ inRangeRows rows (asOf - fromDays) asOf :=
    (List.mem_filter.mp hpfilter).1
  have hfle : f ≤ asOf := hp1 ▸ (inRangeRows_mem hprs).2
  cases hm : minDay? (inRangeRows rows (asOf - fromDays) asOf) with
  | none =>
    rw [minDay?_eq_none.mp hm] at hprs
    cases hprs
  | some m =>
    have hmle : m ≤ f := hp1 ▸ minDay?_le hm p hprs
    simp only [computeFitnessFromWorkouts, hm]
    rw [emaLoop_eq_specEma]
    have hn : (asOf - m + 1).toNat = (f - m).toNat + (asOf - f + 1).toNat := by
      omega
    rw [hn, specEma_zero_prefix _ _ _ _ (fun i hi =>
      specDailyTss_zero_before _ _ hf _ (by omega))]
    have hmf : m + ((f - m).toNat : ℤ) = f := by omega
    rw [hmf]

/-- Witness for C8: one workout of TSS 100 on day 0, `as_of` day 1. -/
theorem c8_ema_refinement_witness :
    computeFitnessFromWorkouts [(some 0, some 100)] 1 90 =
      some ⟨pyRound1 (specEma (inRangeRows [(some 0, some 100)] (1 - 90) 1)
              ((1 : ℤ) - 0 + 1).toNat 0 (0, 0)).1,
            pyRound1 (specEma (inRangeRows [(some 0, some 100)] (1 - 90) 1)
              ((1 : ℤ) - 0 + 1).toNat 0 (0, 0)).2,
            pyRound1 ((specEma (inRangeRows [(some 0, some 100)] (1 - 90) 1)
              ((1 : ℤ) - 0 + 1).toNat 0 (0, 0)).1 -
              (specEma (inRangeRows [(some 0, some 100)] (1 - 90) 1)
              ((1 : ℤ) - 0 + 1).toNat 0 (0, 0)).2),
            1⟩ :=
  c8_ema_refinement [(some 0, some 100)] 1 90 0
    (by simp [inRangeRows, specFirstTssDay?, minDay?])

/-! ## RateLimiter — `src/backend/app/services/strava_client.py` -/

/-- `LIMIT_15MIN = 200` (Strava's hard ceiling per 15 minutes). -/
def LIMIT_15MIN : ℕ := 200

/-- `LIMIT_DAILY = 2000`. -/
def LIMIT_DAILY : ℕ := 2000

/-- `THRESHOLD_15MIN = 180` (90% of the 200 ceiling; enqueue at/above it). -/
def THRESHOLD_15MIN : ℕ := 180

/-- `THRESHOLD_DAILY = 1900`. -/
def THRESHOLD_DAILY : ℕ := 1900

/-- The module-level `_usage_15min` / `_usage_daily` timestamp lists. -/
structure RateLimiterState where
  usage15min : List ℚ
  usageDaily : List ℚ

/-- `_trim_usage()` evaluated at time `now`: drop timestamps older than the
15-minute and 24-hour windows. -/
def trimUsage (s : RateLimiterState) (now : ℚ) : RateLimiterState :=
  ⟨s.usage15min.filter (fun t => now - 15 * 60 < t),
   s.usageDaily.filter (fun t => now - 86400 < t)⟩

/-- `strava_can_make_request()` at time `now`: trim, then require both
window counts strictly below their thresholds. -/
def stravaCanMakeRequest (s : RateLimiterState) (now : ℚ) : Bool :=
  decide ((trimUsage s now).usage15min.length < THRESHOLD_15MIN) &&
  decide ((trimUsage s now).usageDaily.length < THRESHOLD_DAILY)

/-- `strava_record_request()` at time `t`: append `t` to both windows. -/
def stravaRecordRequest (s : RateLimiterState) (t : ℚ) : RateLimiterState :=
  ⟨s.usage15min ++ [t], s.usageDaily ++ [t]⟩

/-- The empty (process-start) limiter state. -/
def emptyLimiter : RateLimiterState := ⟨[], []⟩

/-- Record a sequence of calls at the given times, starting empty. -/
def recordAll (ts : List ℚ) : RateLimiterState :=
  ts.foldl stravaRecordRequest emptyLimiter

theorem recordAll_usage (ts : List ℚ) :
    (recordAll ts).usage15min = ts ∧ (recordAll ts).usageDaily = ts := by
  have h : ∀ (l : List ℚ) (s : RateLimiterState),
      (l.foldl stravaRecordRequest s).usage15min = s.usage15min ++ l ∧
      (l.foldl stravaRecordRequest s).usageDaily = s.usageDaily ++ l := by
    intro l
    induction l with
    | nil => intro s; simp
    | cons t rest ih =>
      intro s
      simp only [List.foldl_cons]
      rw [(ih _).1, (ih _).2]
      simp [stravaRecordRequest]
  have := h ts emptyLimiter
  simpa [recordAll, emptyLimiter] using this

/-- C6: after exactly 180 calls (the 15-minute threshold, 90% of the 200
ceiling) recorded inside the 15-minute window, `can_call` is false; once all
those timestamps have aged past 15 minutes it is true again with no further
`record_call`. -/
theorem c6_rate_limiter_threshold (ts : List ℚ) (now later : ℚ)
    (hlen : ts.length = THRESHOLD_15MIN)
    (hwin : ∀ t ∈ ts, now - 15 * 60 < t)
    (haged : ∀ t ∈ ts, t ≤ later - 15 * 60) :
    stravaCanMakeRequest (recordAll ts) now = false ∧
    stravaCanMakeRequest (recordAll ts) later = true := by
  obtain ⟨h15, hday⟩ := recordAll_usage ts
  constructor
  · have hkeep : (recordAll ts).usage15min.filter (fun t => decide (now - 15 * 60 < t)) = ts := by
      rw [h15]
      exact List.filter_eq_self.mpr fun t ht => by simpa using hwin t ht
    simp [stravaCanMakeRequest, trimUsage, hkeep, hlen]
  · have hdrop : (recordAll ts).usage15min.filter (fun t => decide (later - 15 * 60 < t)) = [] := by
      rw [h15]
      refine List.filter_eq_nil.mpr fun t ht => ?_
      have := haged t ht
      simp only [decide_eq_true_eq]
      intro hcon
      linarith
    have hle : ((recordAll ts).usageDaily.filter (fun t => decide (later - 86400 < t))).length
        ≤ ts.length := by
      rw [hday]
      exact List.length_filter_le _ _
    simp only [stravaCanMakeRequest, trimUsage, hdrop, Bool.and_eq_true,
      decide_eq_true_eq, List.length_nil]
    refine ⟨by simp [THRESHOLD_15MIN], ?_⟩
    calc ((recordAll ts).usageDaily.filter (fun t => decide (later - 86400 < t))).length
        ≤ ts.length := hle
      _ < THRESHOLD_DAILY := by rw [hlen]; simp [THRESHOLD_15MIN, THRESHOLD_DAILY]

/-- Witness for C6: 180 calls all at time 0; blocked at time 0, allowed
again at time 1000 (> 900 s later). -/
theorem c6_rate_limiter_threshold_witness :
    stravaCanMakeRequest (recordAll (List.replicate 180 (0 : ℚ))) 0 = false ∧
    stravaCanMakeRequest (recordAll (List.replicate 180 (0 : ℚ))) 1000 = true :=
  c6_rate_limiter_threshold (List.replicate 180 0) 0 1000
    (by rw [List.length_replicate, THRESHOLD_15MIN])
    (by
      intro t ht
      rw [List.eq_of_mem_replicate ht]
      norm_num)
    (by
      intro t ht
      rw [List.eq_of_mem_replicate ht]
      norm_num)

/-! ## Sync dispatch — `run_sync_or_enqueue` in
`src/backend/app/services/strava_sync.py` -/

/-- A `strava_sync_queue` row (the fields dispatch touches). -/
structure SyncQueueJob where
  user_id : ℤ
  status : String
deriving DecidableEq, Repr

/-- The queue table as seen by `run_sync_or_enqueue`. -/
structure SyncDB where
  queue : List SyncQueueJob
deriving DecidableEq, Repr

/-- `run_sync_or_enqueue(session, user_id)`. The synchronous pipeline
`sync_user_strava_activities` is passed in abstractly as a state transformer
returning the new database state and the number of provider HTTP calls it
performed; the enqueue branch never invokes it. -/
def runSyncOrEnqueue (canCall : Bool) (syncPipeline : SyncDB → SyncDB × ℕ)
    (db : SyncDB) (userId : ℤ) : String × SyncDB × ℕ :=
  if canCall then
    ("syncing", (syncPipeline db).1, (syncPipeline db).2)
  else
    ("queued", ⟨db.queue ++ [⟨userId, "pending"⟩]⟩, 0)

/-- C7: when the rate limiter denies, `run_sync_or_enqueue` returns
`"queued"`, appends exactly one new pending `SyncQueueJob` for the user, and
performs zero provider HTTP calls; when it allows, it runs the synchronous
pipeline and returns `"syncing"`. -/
theorem c7_backpressure_dispatch (syncPipeline : SyncDB → SyncDB × ℕ)
    (db : SyncDB) (userId : ℤ) :
    runSyncOrEnqueue false syncPipeline db userId
      = ("queued", ⟨db.queue ++ [⟨userId, "pending"⟩]⟩, 0) ∧
    (runSyncOrEnqueue true syncPipeline db userId).1 = "syncing" ∧
    (runSyncOrEnqueue true syncPipeline db userId).2.1 = (syncPipeline db).1 ∧
    (runSyncOrEnqueue true syncPipeline db userId).2.2 = (syncPipeline db).2 := by
  simp [runSyncOrEnqueue]

/-! ## Token refresh & revocation teardown — `_ensure_access_token` in
`src/backend/app/services/strava_sync.py` -/

/-- A `strava_credentials` row. -/
structure StravaCredentials where
  user_id : ℤ
  encrypted_refresh_token : String
  access_token : Option String
  expires_at : Option ℚ
deriving DecidableEq, Repr

/-- A `strava_activities` row (identity fields only). -/
structure StravaActivityRow where
  user_id : ℤ
  strava_id : ℤ
deriving DecidableEq, Repr

/-- The tables `_ensure_access_token` can touch. -/
structure StravaDB where
  activities : List StravaActivityRow
  queue : List SyncQueueJob
  credentials : List StravaCredentials
deriving DecidableEq, Repr

/-- The token endpoint's response body. -/
structure TokenData where
  access_token : Option String
  refresh_token : Option String
  expires_at : Option ℚ
deriving DecidableEq, Repr

/-- Outcome of `refresh_access_token`: a body, or `httpx.HTTPStatusError`
with a status code. -/
inductive RefreshOutcome where
  | ok (data : TokenData)
  | httpError (status : ℕ)
deriving DecidableEq, Repr

/-- The distinct error conditions `_ensure_access_token` raises:
`ValueError("Strava refresh token decryption failed")`,
`ValueError("Strava access was revoked; unlinked.")` (the distinguished
revocation condition), and a re-raised non-401 `HTTPStatusError`. -/
inductive EnsureError where
  | decryptFailed
  | revoked
  | httpError (status : ℕ)
deriving DecidableEq, Repr

/-- Python truthiness of an optional string (`None` and `""` are falsy). -/
def truthyStr : Option String → Bool
  | some s => decide (s ≠ "")
  | none => false

/-- Python truthiness of an optional number (`None` and `0` are falsy). -/
def truthyNum : Option ℚ → Bool
  | some e => decide (e ≠ 0)
  | none => false

/-- The credential mutations after a successful refresh: store the new
access token when present, then expiry and rotated refresh secret when
present. -/
def updateCreds (creds : StravaCredentials) (data : TokenData)
    (encryptValue : String → String) : StravaCredentials :=
  if truthyStr data.access_token then
    { creds with
      access_token := data.access_token
      expires_at := if truthyNum data.expires_at then data.expires_at
        else creds.expires_at
      encrypted_refresh_token := if truthyStr data.refresh_token then
        encryptValue ((data.refresh_token).getD "")
        else creds.encrypted_refresh_token }
  else creds

/-- `_ensure_access_token(session, creds)` at time `now`, with the crypto
helpers and the provider call passed in as functions. Returns the raised
condition or the token, together with the resulting database state. -/
def ensureAccessToken (db : StravaDB) (creds : StravaCredentials) (now : ℚ)
    (decryptValue : String → Option String)
    (refreshAccessToken : String → RefreshOutcome)
    (encryptValue : String → String) :
    Except EnsureError (Option String) × StravaDB :=
  if truthyStr creds.access_token &&
      (match creds.expires_at with | some e => decide (now < e) | none => false) then
    (.ok creds.access_token, db)
  else
    let rt := decryptValue creds.encrypted_refresh_token
    if truthyStr rt then
      match refreshAccessToken (rt.getD "") with
      | .httpError status =>
        if status = 401 then
          (.error .revoked,
           ⟨db.activities.filter (fun a => a.user_id ≠ creds.user_id),
            db.queue.filter (fun j => j.user_id ≠ creds.user_id),
            db.credentials.filter (fun c => c.user_id ≠ creds.user_id)⟩)
        else (.error (.httpError status), db)
      | .ok data =>
        let creds' := updateCreds creds data encryptValue
        (.ok (if truthyStr creds'.access_token then creds'.access_token
          else data.access_token),
         { db with credentials :=
            db.credentials.map (fun c => if c.user_id = creds.user_id then creds' else c) })
    else (.error .decryptFailed, db)

theorem filter_ne_user {α : Type} (l : List α) (f : α → ℤ) (u : ℤ)
    (p : α → Bool) :
    ((l.filter (fun x => f x ≠ u)).filter (fun x => decide (f x = u) && p x)) = [] := by
  refine List.filter_eq_nil.mpr fun x hx => ?_
  have hne := (List.mem_filter.mp hx).2
  simp only [ne_eq, decide_not, Bool.not_eq_true', decide_eq_false_iff_not] at hne
  simp [hne]

/-- C4: when the refresh call reports HTTP 401, `_ensure_access_token`
deletes every synced activity row and every queue job of the user and the
user's credentials row, and raises the distinguished revocation condition
(`ValueError("Strava access was revoked; unlinked.")`), not a generic
failure. -/
theorem c4_revocation_teardown (db : StravaDB) (creds : StravaCredentials)
    (now : ℚ) (decryptValue : String → Option String)
    (refreshAccessToken : String → RefreshOutcome)
    (encryptValue : String → String)
    (hcache : (truthyStr creds.access_token &&
      (match creds.expires_at with
       | some e => decide (now < e)
       | none => false)) = false)
    (hrt : truthyStr (decryptValue creds.encrypted_refresh_token) = true)
    (h401 : refreshAccessToken
      ((decryptValue creds.encrypted_refresh_token).getD "") = .httpError 401) :
    (ensureAccessToken db creds now decryptValue refreshAccessToken
      encryptValue).1 = .error .revoked ∧
    ((ensureAccessToken db creds now decryptValue refreshAccessToken
      encryptValue).2.activities.filter
        (fun a => a.user_id = creds.user_id)) = [] ∧
    ((ensureAccessToken db creds now decryptValue refreshAccessToken
      encryptValue).2.queue.filter
        (fun j => decide (j.user_id = creds.user_id) &&
          decide (j.status = "pending"))) = [] ∧
    ((ensureAccessToken db creds now decryptValue refreshAccessToken
      encryptValue).2.credentials.filter
        (fun c => c.user_id = creds.user_id)) = [] := by
  have hred : ensureAccessToken db creds now decryptValue refreshAccessToken
      encryptValue =
      (.error .revoked,
       ⟨db.activities.filter (fun a => a.user_id ≠ creds.user_id),
        db.queue.filter (fun j => j.user_id ≠ creds.user_id),
        db.credentials.filter (fun c => c.user_id ≠ creds.user_id)⟩) := by
    rw [ensureAccessToken, if_neg (by simp [hcache]), if_pos hrt, h401]
    simp
  rw [hred]
  refine ⟨rfl, ?_, ?_, ?_⟩
  · refine List.filter_eq_nil.mpr fun x hx => ?_
    have hne := (List.mem_filter.mp hx).2
    simp only [ne_eq, decide_not, Bool.not_eq_true', decide_eq_false_iff_not] at hne
    simp [hne]
  · exact filter_ne_user db.queue (fun j => j.user_id) creds.user_id _
  · refine List.filter_eq_nil.mpr fun x hx => ?_
    have hne := (List.mem_filter.mp hx).2
    simp only [ne_eq, decide_not, Bool.not_eq_true', decide_eq_false_iff_not] at hne
    simp [hne]

/-- Witness for C4: one activity, one pending job, one credentials row for
user 1; the provider answers 401. -/
theorem c4_revocation_teardown_witness :
    (ensureAccessToken ⟨[⟨1, 77⟩], [⟨1, "pending"⟩], [⟨1, "enc", none, none⟩]⟩
      ⟨1, "enc", none, none⟩ 0 (fun _ => some "rt")
      (fun _ => .httpError 401) id).1 = .error .revoked ∧
    ((ensureAccessToken ⟨[⟨1, 77⟩], [⟨1, "pending"⟩], [⟨1, "enc", none, none⟩]⟩
      ⟨1, "enc", none, none⟩ 0 (fun _ => some "rt")
      (fun _ => .httpError 401) id).2.activities.filter
        (fun a => a.user_id = (1 : ℤ))) = [] ∧
    ((ensureAccessToken ⟨[⟨1, 77⟩], [⟨1, "pending"⟩], [⟨1, "enc", none, none⟩]⟩
      ⟨1, "enc", none, none⟩ 0 (fun _ => some "rt")
      (fun _ => .httpError 401) id).2.queue.filter
        (fun j => decide (j.user_id = (1 : ℤ)) &&
          decide (j.status = "pending"))) = [] ∧
    ((ensureAccessToken ⟨[⟨1, 77⟩], [⟨1, "pending"⟩], [⟨1, "enc", none, none⟩]⟩
      ⟨1, "enc", none, none⟩ 0 (fun _ => some "rt")
      (fun _ => .httpError 401) id).2.credentials.filter
        (fun c => c.user_id = (1 : ℤ))) = [] :=
  c4_revocation_teardown _ _ 0 _ _ id (by simp [truthyStr])
    (by simp [truthyStr]) rfl

/-! ## C10 — zero edges of `_within_tolerance` -/

/-- C10: both values exactly zero match; a single zero is compared by
absolute difference against `1e-6` (so a zero TSS never tolerance-matches a
materially nonzero TSS, whatever the tolerance); and when both values are
nonzero the relative-difference branch runs with a strictly positive
denominator. -/
theorem c10_within_tolerance_zero_edges (a b tol : ℚ) (ha : a ≠ 0) (hb : b ≠ 0) :
    withinTolerance (some 0) (some 0) tol = true ∧
    (withinTolerance (some 0) (some b) tol = true ↔ |b| < 1 / 1000000) ∧
    (withinTolerance (some b) (some 0) tol = true ↔ |b| < 1 / 1000000) ∧
    (1 / 1000000 ≤ |b| → withinTolerance (some 0) (some b) tol = false) ∧
    (withinTolerance (some a) (some b) tol
      = decide (|a - b| / max |a| |b| ≤ tol) ∧ 0 < max |a| |b|) := by
  refine ⟨by simp [withinTolerance], ?_, ?_, ?_, ?_, ?_⟩
  · simp [withinTolerance, hb, abs_sub_comm]
  · simp [withinTolerance, hb]
  · intro hge
    simp [withinTolerance, hb, abs_sub_comm]
    linarith
  · simp [withinTolerance, ha, hb]
  · exact lt_max_of_lt_left (abs_pos.mpr ha)

/-- Witness for C10 at `a = 100`, `b = 3`, `tol = 5%`. -/
theorem c10_within_tolerance_zero_edges_witness :
    withinTolerance (some 0) (some 0) TSS_TOLERANCE = true ∧
    (withinTolerance (some 0) (some 3) TSS_TOLERANCE = true ↔
      |(3 : ℚ)| < 1 / 1000000) ∧
    (withinTolerance (some 3) (some 0) TSS_TOLERANCE = true ↔
      |(3 : ℚ)| < 1 / 1000000) ∧
    (1 / 1000000 ≤ |(3 : ℚ)| →
      withinTolerance (some 0) (some 3) TSS_TOLERANCE = false) ∧
    (withinTolerance (some 100) (some 3) TSS_TOLERANCE
      = decide (|(100 : ℚ) - 3| / max |(100 : ℚ)| |(3 : ℚ)| ≤ TSS_TOLERANCE) ∧
      0 < max |(100 : ℚ)| |(3 : ℚ)|) :=
  c10_within_tolerance_zero_edges 100 3 TSS_TOLERANCE (by norm_num) (by norm_num)

end SmartTrainer
